import Mathlib

/-!
# The fragile-function marker pass of `src/code.cpp`

A shallow embedding of `FragileFunctionMarkerPass` (its two fields,
`setFragileClusters`, `runOnFunction`), of `markFragileFunctions` and of the
test program built by `main`, followed by the properties of the classification.

Modelling decisions, all read off the source:

* `llvm::DebugLoc` is a possibly-null handle on a `DILocation`.  The pass tests
  a block's location with `if (BBLoc)` before reading it, so a block's location
  is an `Option`.  A cluster's `start` and `end` are read with `getLine()` and
  `getCol()` without a test; LLVM requires a non-null location there, so the
  endpoints of a cluster are resolved locations.
* `getLine()` and `getCol()` return `unsigned`; the pass only compares them, so
  they are natural numbers and no wrap-around can occur.
* `llvm::Function &F` is a reference: a function is named by its address
  (`FunctionPtr`) and the function object is read from memory.  The
  `std::unordered_set<llvm::Function *>` holds addresses.
* The `std::unordered_set` is a list of keys in which `insert` adds a key only
  when it is absent; the iteration order of the container is unspecified, so no
  property below depends on the position of a key in that list.
-/

set_option autoImplicit false

namespace FragileMarker

/-! ## Data model -/

/-- A resolved `llvm::DILocation`: line, column, and the scope (which carries
the file) it was created in. -/
structure DILocation where
  line : Nat
  col : Nat
  scope : Nat
deriving DecidableEq, Repr

/-- An `llvm::DebugLoc`: a `DILocation`, or null. -/
abbrev DebugLoc := Option DILocation

/-- The `FragileCluster` struct (lines 17-20).  The field `end` of the source is
`end_` here, `end` being a keyword. -/
structure FragileCluster where
  start : DILocation
  end_ : DILocation
deriving DecidableEq, Repr

/-- An instruction, as far as the pass reads it: `getDebugLoc()`. -/
structure Instruction where
  debugLoc : DebugLoc
deriving DecidableEq, Repr

/-- An `llvm::BasicBlock`: `front()` is its first instruction, `rest` the
instructions after it. -/
structure BasicBlock where
  front : Instruction
  rest : List Instruction
deriving DecidableEq, Repr

/-- An `llvm::Function`: its name and its basic blocks in order. -/
structure Function where
  name : String
  blocks : List BasicBlock
deriving DecidableEq, Repr

/-- The address of a function object (`llvm::Function *`). -/
abbrev FunctionPtr := Nat

/-- The function object stored at each address. -/
abbrev Memory := FunctionPtr → Function

/-- An `llvm::Module`, as far as `markFragileFunctions` reads it: the functions
it iterates over, in order. -/
abbrev Module := List FunctionPtr

/-- The `std::unordered_set<llvm::Function *>`: its keys. -/
abbrev UnorderedSet := List FunctionPtr

/-- The member `insert` of `std::unordered_set`: a key already present is not
added again. -/
def UnorderedSet.insert (s : UnorderedSet) (p : FunctionPtr) : UnorderedSet :=
  if p ∈ s then s else p :: s

/-- The fields of `FragileFunctionMarkerPass` (lines 29-30). -/
structure FragileFunctionMarkerPass where
  fragileClusters : List FragileCluster
  fragileFunctions : UnorderedSet
deriving DecidableEq, Repr

/-! ## The pass -/

/-- The constructor (line 33): both containers start empty. -/
def FragileFunctionMarkerPass.new : FragileFunctionMarkerPass :=
  { fragileClusters := [], fragileFunctions := [] }

/-- The method `setFragileClusters` (lines 35-37): only `fragileClusters` is
assigned. -/
def FragileFunctionMarkerPass.setFragileClusters (P : FragileFunctionMarkerPass)
    (clusters : List FragileCluster) : FragileFunctionMarkerPass :=
  { P with fragileClusters := clusters }

/-- The condition of the `if` at lines 51-54. -/
def withinCluster (BBLoc : DILocation) (cluster : FragileCluster) : Bool :=
  decide (BBLoc.line ≥ cluster.start.line) &&
  decide (BBLoc.line ≤ cluster.end_.line) &&
  decide (BBLoc.col ≥ cluster.start.col) &&
  decide (BBLoc.col ≤ cluster.end_.col)

/-- The inner loop of `runOnFunction` (lines 43-60) over the blocks still to
visit, threading the local `isFragile`: a block without a location is passed
over, the first block within the cluster sets `isFragile` and breaks. -/
def blockLoop (cluster : FragileCluster) : List BasicBlock → Bool → Bool
  | [], isFragile => isFragile
  | BB :: more, isFragile =>
    match BB.front.debugLoc with
    | some BBLoc =>
      if withinCluster BBLoc cluster then true
      else blockLoop cluster more isFragile
    | none => blockLoop cluster more isFragile

/-- The outer loop of `runOnFunction` (lines 41-61) over the clusters still to
visit: every cluster runs the inner loop over all the blocks of the function. -/
def clusterLoop (blocks : List BasicBlock) : List FragileCluster → Bool → Bool
  | [], isFragile => isFragile
  | cluster :: more, isFragile =>
    clusterLoop blocks more (blockLoop cluster blocks isFragile)

/-- The value of the local `isFragile` at line 63. -/
def isFragileVerdict (clusters : List FragileCluster) (F : Function) : Bool :=
  clusterLoop F.blocks clusters false

/-- The method `runOnFunction` (lines 39-68): the returned `bool` (always
`false`) and the pass after the call. -/
def FragileFunctionMarkerPass.runOnFunction (mem : Memory)
    (P : FragileFunctionMarkerPass) (F : FunctionPtr) :
    Bool × FragileFunctionMarkerPass :=
  let isFragile := isFragileVerdict P.fragileClusters (mem F)
  let P1 :=
    if isFragile then { P with fragileFunctions := P.fragileFunctions.insert F }
    else P
  (false, P1)

/-- The loop of lines 113-115: `runOnFunction` on each function of the module
in order, the returned `bool` dropped. -/
def runOnEach (mem : Memory) :
    FragileFunctionMarkerPass → Module → FragileFunctionMarkerPass
  | P, [] => P
  | P, F :: more => runOnEach mem (P.runOnFunction mem F).2 more

/-- The function `markFragileFunctions` (lines 106-119): a new pass, the
clusters set, every function of the module run.  The result is the pass whose
`fragileFunctions` the call to `print` at line 118 then lists. -/
def markFragileFunctions (mem : Memory) (M : Module)
    (fragileClusters : List FragileCluster) : FragileFunctionMarkerPass :=
  let FragilePass := FragileFunctionMarkerPass.new
  let FragilePass := FragilePass.setFragileClusters fragileClusters
  runOnEach mem FragilePass M

/-! ## The variant of the specification that skips the remaining clusters -/

/-- The outer loop that stops visiting clusters once `isFragile` is set. -/
def clusterLoopSkip (blocks : List BasicBlock) : List FragileCluster → Bool → Bool
  | [], isFragile => isFragile
  | cluster :: more, isFragile =>
    if isFragile then true
    else clusterLoopSkip blocks more (blockLoop cluster blocks isFragile)

/-- The verdict of the skipping variant. -/
def isFragileVerdictSkip (clusters : List FragileCluster) (F : Function) : Bool :=
  clusterLoopSkip F.blocks clusters false

/-- The method `runOnFunction` with the skipping outer loop. -/
def FragileFunctionMarkerPass.runOnFunctionSkip (mem : Memory)
    (P : FragileFunctionMarkerPass) (F : FunctionPtr) :
    Bool × FragileFunctionMarkerPass :=
  let isFragile := isFragileVerdictSkip P.fragileClusters (mem F)
  let P1 :=
    if isFragile then { P with fragileFunctions := P.fragileFunctions.insert F }
    else P
  (false, P1)

/-! ## The test program of `main` (lines 121-191) -/

/-- A block holding one instruction (the `ret void` of lines 147 and 167) with
the given location. -/
def blockAt (loc : DebugLoc) : BasicBlock :=
  { front := { debugLoc := loc }, rest := [] }

/-- The function `foo` (lines 134-147): one block at line 1, column 1. -/
def fooFunction : Function :=
  { name := "foo", blocks := [blockAt (some { line := 1, col := 1, scope := 0 })] }

/-- The function `bar` (lines 150-167): one block at line 1, column 0. -/
def barFunction : Function :=
  { name := "bar", blocks := [blockAt (some { line := 1, col := 0, scope := 0 })] }

/-- The address of `foo`. -/
def fooPtr : FunctionPtr := 1

/-- The address of `bar`. -/
def barPtr : FunctionPtr := 2

/-- The memory of `main`: `foo` and `bar` at their addresses (a function
without blocks elsewhere). -/
def mainMemory : Memory := fun p =>
  if p = fooPtr then fooFunction
  else if p = barPtr then barFunction
  else { name := "", blocks := [] }

/-- The module of `main`: `foo`, then `bar`. -/
def mainModule : Module := [fooPtr, barPtr]

/-- The clusters of `main` (lines 171-177): start (1,1), end (2,1), twice. -/
def mainClusters : List FragileCluster :=
  [ { start := { line := 1, col := 1, scope := 0 }, end_ := { line := 2, col := 1, scope := 0 } },
    { start := { line := 1, col := 1, scope := 0 }, end_ := { line := 2, col := 1, scope := 0 } } ]

/-- A memory with, at address 3, a function of two blocks whose first
instructions have no location, and the functions of `main` at their addresses. -/
def unlocatedMemory : Memory := fun p =>
  if p = 3 then { name := "baz", blocks := [blockAt none, blockAt none] }
  else mainMemory p

/-! ## Lemmas on the two loops -/

theorem blockLoop_true (cluster : FragileCluster) (blocks : List BasicBlock) :
    blockLoop cluster blocks true = true := by
  induction blocks with
  | nil => rfl
  | cons BB more ih =>
    simp only [blockLoop]
    cases BB.front.debugLoc with
    | none => exact ih
    | some BBLoc =>
      by_cases h : withinCluster BBLoc cluster = true
      · simp [h]
      · simp [h, ih]

theorem blockLoop_eq_true_iff (cluster : FragileCluster) (blocks : List BasicBlock)
    (isFragile : Bool) :
    blockLoop cluster blocks isFragile = true ↔
      isFragile = true ∨
        ∃ B ∈ blocks, ∃ P, B.front.debugLoc = some P ∧ withinCluster P cluster = true := by
  induction blocks with
  | nil => simp [blockLoop]
  | cons BB more ih =>
    simp only [blockLoop]
    cases hloc : BB.front.debugLoc with
    | none =>
      simp only [ih, List.mem_cons, exists_eq_or_imp, hloc]
      simp
    | some BBLoc =>
      by_cases h : withinCluster BBLoc cluster = true
      · simp [h, hloc]
      · simp [h, hloc, ih]

theorem clusterLoop_eq_true_iff (blocks : List BasicBlock) (clusters : List FragileCluster)
    (isFragile : Bool) :
    clusterLoop blocks clusters isFragile = true ↔
      isFragile = true ∨
        ∃ C ∈ clusters, ∃ B ∈ blocks, ∃ P,
          B.front.debugLoc = some P ∧ withinCluster P C = true := by
  induction clusters generalizing isFragile with
  | nil => simp [clusterLoop]
  | cons cluster more ih =>
    simp only [clusterLoop, ih, blockLoop_eq_true_iff, List.mem_cons, exists_eq_or_imp,
      or_assoc]

theorem isFragileVerdict_eq_true_iff (clusters : List FragileCluster) (F : Function) :
    isFragileVerdict clusters F = true ↔
      ∃ C ∈ clusters, ∃ B ∈ F.blocks, ∃ P,
        B.front.debugLoc = some P ∧ withinCluster P C = true := by
  simp [isFragileVerdict, clusterLoop_eq_true_iff]

theorem clusterLoop_true (blocks : List BasicBlock) (clusters : List FragileCluster) :
    clusterLoop blocks clusters true = true := by
  simp [clusterLoop_eq_true_iff]

theorem clusterLoopSkip_eq (blocks : List BasicBlock) (clusters : List FragileCluster)
    (isFragile : Bool) :
    clusterLoopSkip blocks clusters isFragile = clusterLoop blocks clusters isFragile := by
  induction clusters generalizing isFragile with
  | nil => rfl
  | cons cluster more ih =>
    cases isFragile with
    | true => simp [clusterLoopSkip, clusterLoop, blockLoop_true, clusterLoop_true]
    | false => simp [clusterLoopSkip, clusterLoop, ih]

/-! ## Lemmas on the set and on the pass -/

theorem UnorderedSet.mem_insert (s : UnorderedSet) (p q : FunctionPtr) :
    q ∈ s.insert p ↔ q = p ∨ q ∈ s := by
  unfold UnorderedSet.insert
  by_cases h : p ∈ s
  · simp only [h, if_true]
    constructor
    · exact Or.inr
    · rintro (rfl | hq)
      · exact h
      · exact hq
  · simp [h]

theorem UnorderedSet.nodup_insert (s : UnorderedSet) (p : FunctionPtr) (hs : s.Nodup) :
    (s.insert p).Nodup := by
  unfold UnorderedSet.insert
  by_cases h : p ∈ s
  · simpa [h] using hs
  · simpa [h] using hs

theorem runOnFunction_clusters (mem : Memory) (P : FragileFunctionMarkerPass)
    (F : FunctionPtr) :
    (P.runOnFunction mem F).2.fragileClusters = P.fragileClusters := by
  unfold FragileFunctionMarkerPass.runOnFunction
  by_cases h : isFragileVerdict P.fragileClusters (mem F) = true <;> simp [h]

theorem runOnFunction_mem_iff (mem : Memory) (P : FragileFunctionMarkerPass)
    (F p : FunctionPtr) :
    p ∈ (P.runOnFunction mem F).2.fragileFunctions ↔
      p ∈ P.fragileFunctions ∨
        (p = F ∧ isFragileVerdict P.fragileClusters (mem F) = true) := by
  unfold FragileFunctionMarkerPass.runOnFunction
  by_cases h : isFragileVerdict P.fragileClusters (mem F) = true
  · simp only [h, if_true, UnorderedSet.mem_insert]
    tauto
  · simp [h]

theorem runOnFunction_nodup (mem : Memory) (P : FragileFunctionMarkerPass)
    (F : FunctionPtr) (hP : P.fragileFunctions.Nodup) :
    (P.runOnFunction mem F).2.fragileFunctions.Nodup := by
  unfold FragileFunctionMarkerPass.runOnFunction
  by_cases h : isFragileVerdict P.fragileClusters (mem F) = true
  · simpa [h] using UnorderedSet.nodup_insert _ _ hP
  · simpa [h] using hP

theorem runOnEach_clusters (mem : Memory) (P : FragileFunctionMarkerPass) (M : Module) :
    (runOnEach mem P M).fragileClusters = P.fragileClusters := by
  induction M generalizing P with
  | nil => rfl
  | cons F more ih => simp [runOnEach, ih, runOnFunction_clusters]

theorem runOnEach_mem_iff (mem : Memory) (P : FragileFunctionMarkerPass) (M : Module)
    (p : FunctionPtr) :
    p ∈ (runOnEach mem P M).fragileFunctions ↔
      p ∈ P.fragileFunctions ∨
        (p ∈ M ∧ isFragileVerdict P.fragileClusters (mem p) = true) := by
  induction M generalizing P with
  | nil => simp [runOnEach]
  | cons F more ih =>
    simp only [runOnEach, ih, runOnFunction_mem_iff, runOnFunction_clusters, List.mem_cons]
    constructor
    · rintro ((h | ⟨rfl, h⟩) | ⟨h1, h2⟩)
      · exact Or.inl h
      · exact Or.inr ⟨Or.inl rfl, h⟩
      · exact Or.inr ⟨Or.inr h1, h2⟩
    · rintro (h | ⟨rfl | h1, h2⟩)
      · exact Or.inl (Or.inl h)
      · exact Or.inl (Or.inr ⟨rfl, h2⟩)
      · exact Or.inr ⟨h1, h2⟩

theorem runOnEach_nodup (mem : Memory) (P : FragileFunctionMarkerPass) (M : Module)
    (hP : P.fragileFunctions.Nodup) :
    (runOnEach mem P M).fragileFunctions.Nodup := by
  induction M generalizing P with
  | nil => exact hP
  | cons F more ih => exact ih _ (runOnFunction_nodup mem P F hP)

theorem mem_fragileFunctions_iff_verdict (mem : Memory) (M : Module)
    (clusters : List FragileCluster) (p : FunctionPtr) :
    p ∈ (markFragileFunctions mem M clusters).fragileFunctions ↔
      p ∈ M ∧ isFragileVerdict clusters (mem p) = true := by
  simp [markFragileFunctions, runOnEach_mem_iff, FragileFunctionMarkerPass.new,
    FragileFunctionMarkerPass.setFragileClusters]

/-! ## The overlap test -/

/-- C1: the overlap test that `runOnFunction` applies to a block location `P`
and a cluster `C` holds exactly when `P.line >= C.start.line`,
`P.line <= C.end.line`, `P.col >= C.start.col` and `P.col <= C.end.col`, for
every `P` and `C`, whatever the order of the endpoints of `C`.  This is also
what decides whether `runOnFunction` marks a function whose one block is
located at `P` when `C` is the one cluster, and two pairs of a location and a
cluster with the same two lines and two columns get the same answer, so the
scope of the locations plays no part. -/
theorem withinCluster_iff_independent_ranges (P : DILocation) (C : FragileCluster) :
    (withinCluster P C = true ↔
      P.line ≥ C.start.line ∧ P.line ≤ C.end_.line ∧
        P.col ≥ C.start.col ∧ P.col ≤ C.end_.col) ∧
    (∀ (mem : Memory) (F : FunctionPtr) (rest : List Instruction),
      (mem F).blocks = [{ front := { debugLoc := some P }, rest := rest }] →
      (F ∈ (FragileFunctionMarkerPass.runOnFunction mem
              { fragileClusters := [C], fragileFunctions := [] } F).2.fragileFunctions ↔
        P.line ≥ C.start.line ∧ P.line ≤ C.end_.line ∧
          P.col ≥ C.start.col ∧ P.col ≤ C.end_.col)) ∧
    (∀ (P2 : DILocation) (C2 : FragileCluster),
      P2.line = P.line → P2.col = P.col →
      C2.start.line = C.start.line → C2.start.col = C.start.col →
      C2.end_.line = C.end_.line → C2.end_.col = C.end_.col →
      withinCluster P2 C2 = withinCluster P C) := by
  have key : withinCluster P C = true ↔
      P.line ≥ C.start.line ∧ P.line ≤ C.end_.line ∧
        P.col ≥ C.start.col ∧ P.col ≤ C.end_.col := by
    simp [withinCluster, and_assoc]
  refine ⟨key, ?_, ?_⟩
  · intro mem F rest hblocks
    rw [runOnFunction_mem_iff, isFragileVerdict_eq_true_iff, hblocks]
    simp [key]
  · intro P2 C2 h1 h2 h3 h4 h5 h6
    simp [withinCluster, h1, h2, h3, h4, h5, h6]

/-! ## Which functions are marked -/

/-- C2: for every module and every cluster list, a function `F` is in the
fragile-function set produced by `markFragileFunctions` if and only if it is a
function of the module and some cluster `C` of the list and some block `B` of
`F`, at any position, are such that the first instruction of `B` has a resolved
location within `C`.  In particular a function of the module with two blocks
whose second block is located within a cluster is marked, whatever its first
block is. -/
theorem markFragileFunctions_mem_iff (mem : Memory) (M : Module)
    (clusters : List FragileCluster) (F : FunctionPtr) :
    (F ∈ (markFragileFunctions mem M clusters).fragileFunctions ↔
      F ∈ M ∧ ∃ C ∈ clusters, ∃ B ∈ (mem F).blocks, ∃ P,
        B.front.debugLoc = some P ∧ withinCluster P C = true) ∧
    (∀ (B1 B2 : BasicBlock) (C : FragileCluster) (P : DILocation),
      F ∈ M → (mem F).blocks = [B1, B2] → C ∈ clusters →
      B2.front.debugLoc = some P → withinCluster P C = true →
      F ∈ (markFragileFunctions mem M clusters).fragileFunctions) := by
  have key := mem_fragileFunctions_iff_verdict mem M clusters F
  rw [isFragileVerdict_eq_true_iff] at key
  refine ⟨key, ?_⟩
  intro B1 B2 C P hF hblocks hC hloc hin
  rw [key]
  refine ⟨hF, C, hC, B2, ?_, P, hloc, hin⟩
  rw [hblocks]
  simp

/-- C3, as the code has it: for every pass state, every cluster list and every
function list, after `setFragileClusters` and `runOnFunction` on each function
of the list, `fragileFunctions` holds exactly what it held before together with
the functions of the list that have a located block within some cluster; the
functions marked earlier are carried over.  When the pass held no function
before, as the new pass of `markFragileFunctions` does, the set is exactly the
functions of the list that have a located block within some cluster. -/
theorem runOnEach_accumulates (mem : Memory) (P : FragileFunctionMarkerPass)
    (clusters : List FragileCluster) (M : Module) (p : FunctionPtr) :
    (p ∈ (runOnEach mem (P.setFragileClusters clusters) M).fragileFunctions ↔
      p ∈ P.fragileFunctions ∨
        (p ∈ M ∧ ∃ C ∈ clusters, ∃ B ∈ (mem p).blocks, ∃ L,
          B.front.debugLoc = some L ∧ withinCluster L C = true)) ∧
    (P.fragileFunctions = [] →
      (p ∈ (runOnEach mem (P.setFragileClusters clusters) M).fragileFunctions ↔
        p ∈ M ∧ ∃ C ∈ clusters, ∃ B ∈ (mem p).blocks, ∃ L,
          B.front.debugLoc = some L ∧ withinCluster L C = true)) := by
  have key : p ∈ (runOnEach mem (P.setFragileClusters clusters) M).fragileFunctions ↔
      p ∈ P.fragileFunctions ∨
        (p ∈ M ∧ ∃ C ∈ clusters, ∃ B ∈ (mem p).blocks, ∃ L,
          B.front.debugLoc = some L ∧ withinCluster L C = true) := by
    rw [runOnEach_mem_iff, isFragileVerdict_eq_true_iff]
    rfl
  refine ⟨key, ?_⟩
  intro hempty
  rw [key, hempty]
  simp

/-- C3, as stated, fails: `foo` is marked by a first invocation on the module
`[foo]` with the clusters of `main`; the same pass is then given the empty
cluster list and run on `[bar]`.  Its set still holds `foo`, which is not a
function of the second list and has no cluster to lie within. -/
theorem fragileFunctions_not_built_fresh :
    ¬ (fooPtr ∈ (runOnEach mainMemory
          ((markFragileFunctions mainMemory [fooPtr] mainClusters).setFragileClusters [])
          [barPtr]).fragileFunctions ↔
        fooPtr ∈ [barPtr] ∧ ∃ C ∈ ([] : List FragileCluster),
          ∃ B ∈ (mainMemory fooPtr).blocks, ∃ L,
            B.front.debugLoc = some L ∧ withinCluster L C = true) := by
  intro h
  have hmem : fooPtr ∈ (runOnEach mainMemory
      ((markFragileFunctions mainMemory [fooPtr] mainClusters).setFragileClusters [])
      [barPtr]).fragileFunctions := by decide
  have hnot := h.mp hmem
  simp at hnot

/-- C4: a function with zero blocks, or all of whose blocks have a first
instruction without a resolved location, is not in the fragile-function set
that `markFragileFunctions` produces, for every module and every cluster list;
`runOnFunction` on it returns (with `false`) and leaves the pass, its
`fragileFunctions` included, as it was. -/
theorem runOnFunction_no_located_block (mem : Memory) (P : FragileFunctionMarkerPass)
    (M : Module) (clusters : List FragileCluster) (F : FunctionPtr)
    (h : (mem F).blocks = [] ∨ ∀ B ∈ (mem F).blocks, B.front.debugLoc = none) :
    F ∉ (markFragileFunctions mem M clusters).fragileFunctions ∧
    P.runOnFunction mem F = (false, P) ∧
    (P.runOnFunction mem F).2.fragileFunctions = P.fragileFunctions := by
  have hnone : ∀ B ∈ (mem F).blocks, B.front.debugLoc = none := by
    rcases h with h | h
    · intro B hB
      rw [h] at hB
      cases hB
    · exact h
  have hverdict : ∀ cs, isFragileVerdict cs (mem F) = false := by
    intro cs
    rw [← Bool.not_eq_true, isFragileVerdict_eq_true_iff]
    rintro ⟨C, -, B, hB, L, hL, -⟩
    rw [hnone B hB] at hL
    cases hL
  have hrun : P.runOnFunction mem F = (false, P) := by
    simp [FragileFunctionMarkerPass.runOnFunction, hverdict]
  refine ⟨?_, hrun, ?_⟩
  · rw [mem_fragileFunctions_iff_verdict, hverdict]
    simp
  · rw [hrun]

/-- Witness of C4: the function at address 3 has two blocks whose first
instructions have no location; it is not marked in a module that also holds the
functions of `main`, and `runOnFunction` on it leaves a pass that already holds
`foo` as it was. -/
theorem runOnFunction_no_located_block_witness :
    ((unlocatedMemory 3).blocks = [] ∨
        ∀ B ∈ (unlocatedMemory 3).blocks, B.front.debugLoc = none) ∧
    (3 ∉ (markFragileFunctions unlocatedMemory [fooPtr, 3, barPtr]
            mainClusters).fragileFunctions ∧
      (markFragileFunctions unlocatedMemory [fooPtr] mainClusters).runOnFunction
          unlocatedMemory 3 =
        (false, markFragileFunctions unlocatedMemory [fooPtr] mainClusters) ∧
      ((markFragileFunctions unlocatedMemory [fooPtr] mainClusters).runOnFunction
          unlocatedMemory 3).2.fragileFunctions =
        (markFragileFunctions unlocatedMemory [fooPtr] mainClusters).fragileFunctions) :=
  ⟨Or.inr (by decide),
    runOnFunction_no_located_block unlocatedMemory
      (markFragileFunctions unlocatedMemory [fooPtr] mainClusters)
      [fooPtr, 3, barPtr] mainClusters 3 (Or.inr (by decide))⟩

/-- C5: for every function list, classification with the empty cluster list
produces the empty fragile-function set. -/
theorem markFragileFunctions_no_clusters (mem : Memory) (M : Module) :
    (markFragileFunctions mem M []).fragileFunctions = [] := by
  apply List.eq_nil_iff_forall_not_mem.mpr
  intro p hp
  rw [mem_fragileFunctions_iff_verdict] at hp
  simp [isFragileVerdict, clusterLoop] at hp

/-- C6: adding a cluster `c` at any position of the cluster list (between `l1`
and `l2`) removes no function: every function in the set computed for the
clusters `l1 ++ l2` is in the set computed for `l1 ++ c :: l2`, for the same
functions. -/
theorem markFragileFunctions_mono (mem : Memory) (M : Module)
    (l1 l2 : List FragileCluster) (c : FragileCluster) (p : FunctionPtr)
    (h : p ∈ (markFragileFunctions mem M (l1 ++ l2)).fragileFunctions) :
    p ∈ (markFragileFunctions mem M (l1 ++ c :: l2)).fragileFunctions := by
  rw [mem_fragileFunctions_iff_verdict, isFragileVerdict_eq_true_iff] at h ⊢
  obtain ⟨hM, C, hC, rest⟩ := h
  refine ⟨hM, C, ?_, rest⟩
  rw [List.mem_append] at hC ⊢
  rcases hC with hC | hC
  · exact Or.inl hC
  · exact Or.inr (List.mem_cons_of_mem c hC)

/-- Witness of C6: `foo` is marked with the one cluster (1,1)-(2,1) of `main`
and stays marked when a cluster whose start lies after its end is added. -/
theorem markFragileFunctions_mono_witness :
    fooPtr ∈ (markFragileFunctions mainMemory mainModule
        ([{ start := { line := 1, col := 1, scope := 0 },
            end_ := { line := 2, col := 1, scope := 0 } }] ++ [])).fragileFunctions ∧
    fooPtr ∈ (markFragileFunctions mainMemory mainModule
        ([{ start := { line := 1, col := 1, scope := 0 },
            end_ := { line := 2, col := 1, scope := 0 } }] ++
          { start := { line := 5, col := 7, scope := 0 },
            end_ := { line := 3, col := 9, scope := 0 } } :: [])).fragileFunctions :=
  ⟨by decide,
    markFragileFunctions_mono mainMemory mainModule
      [{ start := { line := 1, col := 1, scope := 0 },
         end_ := { line := 2, col := 1, scope := 0 } }] []
      { start := { line := 5, col := 7, scope := 0 },
        end_ := { line := 3, col := 9, scope := 0 } } fooPtr (by decide)⟩

/-- C7: for every list of functions (pairwise distinct or not) and every
cluster list, no function identity occurs twice in the fragile-function set
that `markFragileFunctions` produces, however many clusters and blocks match.
In `main`, the block of `foo` at (1,1) is within both clusters (1,1)-(2,1) and
`foo` occurs once in the set. -/
theorem markFragileFunctions_unique :
    (∀ (mem : Memory) (M : Module) (clusters : List FragileCluster),
      (markFragileFunctions mem M clusters).fragileFunctions.Nodup ∧
      ∀ p : FunctionPtr,
        (markFragileFunctions mem M clusters).fragileFunctions.count p ≤ 1) ∧
    (∀ C ∈ mainClusters, ∀ B ∈ (mainMemory fooPtr).blocks, ∃ L,
      B.front.debugLoc = some L ∧ withinCluster L C = true) ∧
    mainClusters.length = 2 ∧
    (markFragileFunctions mainMemory mainModule mainClusters).fragileFunctions.count fooPtr
      = 1 := by
  refine ⟨?_, by decide, by decide, by decide⟩
  intro mem M clusters
  have hnodup : (markFragileFunctions mem M clusters).fragileFunctions.Nodup :=
    runOnEach_nodup mem _ M List.nodup_nil
  exact ⟨hnodup, fun p => List.nodup_iff_count_le_one.mp hnodup p⟩

/-- C8: for two functions `f` and `g`, each with exactly one block, whose first
instruction has a resolved location, and every cluster list in which some
cluster contains the location of the block of `f` and no cluster contains that
of the block of `g`, `markFragileFunctions` on the module `[f, g]` produces the
set that holds `f` and nothing else, of size 1.  (The two are then distinct.) -/
theorem markFragileFunctions_two_functions (mem : Memory) (f g : FunctionPtr)
    (clusters : List FragileCluster) (Bf Bg : BasicBlock) (Lf Lg : DILocation)
    (hf : (mem f).blocks = [Bf]) (hLf : Bf.front.debugLoc = some Lf)
    (hg : (mem g).blocks = [Bg]) (hLg : Bg.front.debugLoc = some Lg)
    (hin : ∃ C ∈ clusters, withinCluster Lf C = true)
    (hout : ∀ C ∈ clusters, withinCluster Lg C = false) :
    (markFragileFunctions mem [f, g] clusters).fragileFunctions = [f] ∧
    (markFragileFunctions mem [f, g] clusters).fragileFunctions.length = 1 ∧
    (∀ p, p ∈ (markFragileFunctions mem [f, g] clusters).fragileFunctions ↔ p = f) ∧
    f ≠ g := by
  have hvf : isFragileVerdict clusters (mem f) = true := by
    rw [isFragileVerdict_eq_true_iff, hf]
    obtain ⟨C, hC, hw⟩ := hin
    exact ⟨C, hC, Bf, List.mem_singleton.mpr rfl, Lf, hLf, hw⟩
  have hvg : isFragileVerdict clusters (mem g) = false := by
    rw [← Bool.not_eq_true, isFragileVerdict_eq_true_iff, hg]
    rintro ⟨C, hC, B, hB, L, hL, hw⟩
    rw [List.mem_singleton] at hB
    subst hB
    rw [hLg] at hL
    cases hL
    rw [hout C hC] at hw
    cases hw
  have hres : (markFragileFunctions mem [f, g] clusters).fragileFunctions = [f] := by
    simp [markFragileFunctions, runOnEach, FragileFunctionMarkerPass.runOnFunction,
      FragileFunctionMarkerPass.new, FragileFunctionMarkerPass.setFragileClusters,
      hvf, hvg, UnorderedSet.insert]
  refine ⟨hres, ?_, ?_, ?_⟩
  · rw [hres]
    rfl
  · intro p
    rw [hres]
    exact List.mem_singleton
  · intro hfg
    rw [hfg, hvg] at hvf
    cases hvf

/-- Witness of C8, the instance that `main` builds: `foo` with its block at
line 1, column 1, `bar` with its block at line 1, column 0, and the cluster
(1,1)-(2,1) twice.  Some cluster contains (1,1), none contains (1,0), and the
set is exactly `foo`. -/
theorem markFragileFunctions_main :
    ((∃ C ∈ mainClusters, withinCluster { line := 1, col := 1, scope := 0 } C = true) ∧
      (∀ C ∈ mainClusters, withinCluster { line := 1, col := 0, scope := 0 } C = false)) ∧
    ((markFragileFunctions mainMemory [fooPtr, barPtr] mainClusters).fragileFunctions
        = [fooPtr] ∧
      (markFragileFunctions mainMemory [fooPtr, barPtr] mainClusters).fragileFunctions.length
        = 1 ∧
      (∀ p, p ∈ (markFragileFunctions mainMemory [fooPtr, barPtr]
        mainClusters).fragileFunctions ↔ p = fooPtr) ∧
      fooPtr ≠ barPtr) :=
  ⟨⟨by decide, by decide⟩,
    markFragileFunctions_two_functions mainMemory fooPtr barPtr mainClusters
      (blockAt (some { line := 1, col := 1, scope := 0 }))
      (blockAt (some { line := 1, col := 0, scope := 0 }))
      { line := 1, col := 1, scope := 0 } { line := 1, col := 0, scope := 0 }
      (by decide) (by decide) (by decide) (by decide) (by decide) (by decide)⟩

/-- C9: for every cluster list and every two function lists `F1` and `F2`, the
fragile-function set computed for `F1 ++ F2` has exactly the members of the
union of the sets computed for `F1` and for `F2`.  Whether a function of a list
is marked is what the run on that function alone gives, and two lists that are
permutations of each other give sets with the same members. -/
theorem markFragileFunctions_append (mem : Memory) (clusters : List FragileCluster)
    (F1 F2 : Module) :
    (∀ p, p ∈ (markFragileFunctions mem (F1 ++ F2) clusters).fragileFunctions ↔
      p ∈ (markFragileFunctions mem F1 clusters).fragileFunctions ∨
        p ∈ (markFragileFunctions mem F2 clusters).fragileFunctions) ∧
    (markFragileFunctions mem (F1 ++ F2) clusters).fragileFunctions.toFinset =
      (markFragileFunctions mem F1 clusters).fragileFunctions.toFinset ∪
        (markFragileFunctions mem F2 clusters).fragileFunctions.toFinset ∧
    (∀ p ∈ F1, (p ∈ (markFragileFunctions mem F1 clusters).fragileFunctions ↔
      p ∈ (markFragileFunctions mem [p] clusters).fragileFunctions)) ∧
    (F1.Perm F2 →
      ∀ p, p ∈ (markFragileFunctions mem F1 clusters).fragileFunctions ↔
        p ∈ (markFragileFunctions mem F2 clusters).fragileFunctions) := by
  have key : ∀ p, p ∈ (markFragileFunctions mem (F1 ++ F2) clusters).fragileFunctions ↔
      p ∈ (markFragileFunctions mem F1 clusters).fragileFunctions ∨
        p ∈ (markFragileFunctions mem F2 clusters).fragileFunctions := by
    intro p
    simp only [mem_fragileFunctions_iff_verdict, List.mem_append]
    tauto
  refine ⟨key, ?_, ?_, ?_⟩
  · ext p
    simp only [List.mem_toFinset, Finset.mem_union]
    exact key p
  · intro p hp
    simp only [mem_fragileFunctions_iff_verdict, List.mem_singleton]
    tauto
  · intro hperm p
    simp only [mem_fragileFunctions_iff_verdict, hperm.mem_iff]

/-- C10: the loop of `runOnFunction`, which breaks out of the block loop at the
first matching block and goes on to the remaining clusters, computes the same
verdict as the variant that stops visiting clusters once the function is known
fragile, for every function and every cluster list and whatever `isFragile`
holds when the loop starts; the two versions of `runOnFunction` return the same
value and leave the same pass, hence the same `fragileFunctions`. -/
theorem runOnFunctionSkip_eq (mem : Memory) (P : FragileFunctionMarkerPass)
    (F : FunctionPtr) :
    (∀ (clusters : List FragileCluster) (Fn : Function),
      isFragileVerdictSkip clusters Fn = isFragileVerdict clusters Fn) ∧
    (∀ (blocks : List BasicBlock) (clusters : List FragileCluster) (isFragile : Bool),
      clusterLoopSkip blocks clusters isFragile = clusterLoop blocks clusters isFragile) ∧
    P.runOnFunctionSkip mem F = P.runOnFunction mem F ∧
    (P.runOnFunctionSkip mem F).2.fragileFunctions =
      (P.runOnFunction mem F).2.fragileFunctions := by
  have hverdict : ∀ (clusters : List FragileCluster) (Fn : Function),
      isFragileVerdictSkip clusters Fn = isFragileVerdict clusters Fn := by
    intro clusters Fn
    exact clusterLoopSkip_eq Fn.blocks clusters false
  have hrun : P.runOnFunctionSkip mem F = P.runOnFunction mem F := by
    simp [FragileFunctionMarkerPass.runOnFunctionSkip,
      FragileFunctionMarkerPass.runOnFunction, hverdict]
  exact ⟨hverdict, clusterLoopSkip_eq, hrun, by rw [hrun]⟩

end FragileMarker
